import Mathlib

/-!
Verification development for the ECS272 homework visualization code
(book-swap dataset dashboards).

We shallowly embed the data-processing utilities
(`src/Homework3/jiazuo/src/utils/dataLoader.ts`, identical in spirit to
`src/Homework2/jiazuo/src/utils/dataLoader.ts`) and the selection-state
coordination logic of `src/Homework3/jiazuo/src/App.tsx` together with the
Sankey node click handler of
`src/Homework3/jiazuo/src/components/SankeyDiagram.tsx`.

Modelling conventions:
* JavaScript strings are `List Char` (named `Str` below), so that the
  string-splitting behaviour of `key.split('|')` can be modelled exactly.
* JavaScript numbers are `ℚ` (the code only compares and counts; no
  floating-point rounding is exercised by the specified properties).
* A JavaScript `Map` is an insertion-ordered association list; `set` updates
  an existing key in place or appends a fresh one, exactly like `Map.set`.
* A JavaScript `Set<number>` is a `Finset ℤ` (the claims only use
  membership, emptiness and extensional equality).
-/

abbrev Str := List Char

/-- JavaScript `Map.get`: value of the first (unique) matching key. -/
def mapGet {α : Type} : List (Str × α) → Str → Option α
  | [], _ => none
  | (k', v') :: rest, k => if k' = k then some v' else mapGet rest k

/-- JavaScript `Map.set`: replace the value at an existing key in place,
or append the binding at the end (insertion order preserved). -/
def mapSet {α : Type} : List (Str × α) → Str → α → List (Str × α)
  | [], k, v => [(k, v)]
  | (k', v') :: rest, k, v =>
    if k' = k then (k, v) :: rest else (k', v') :: mapSet rest k v

/-- JavaScript `String.prototype.split('|')`: cut the character list at
every bar character; `[] ↦ [[]]`, and a trailing bar yields a trailing
empty segment, as in JavaScript. -/
def splitBar : Str → List Str
  | [] => [[]]
  | c :: rest =>
    if c = '|' then [] :: splitBar rest
    else
      match splitBar rest with
      | [] => [[c]]
      | p :: ps => (c :: p) :: ps

/-- A string with no bar character; such strings survive a round trip
through key concatenation and `split('|')`. -/
def barFree (s : Str) : Prop := '|' ∉ s

instance (s : Str) : Decidable (barFree s) := by unfold barFree; infer_instance

/-- The record produced for each CSV row by `loadBookData` (only the fields
the verified functions consume are carried). -/
structure BookData where
  id : ℤ
  genre : Str
  rating_average : ℚ
  pageCount : ℚ
  publicationYear : ℚ
  adapted_to_movie : Bool
deriving DecidableEq

/-- The rating cutoff written `4.5` in the source. -/
def c45 : ℚ := mkRat 9 2

/-- The rating cutoff written `4.0` in the source. -/
def c40 : ℚ := mkRat 4 1

/-- The rating cutoff written `3.5` in the source. -/
def c35 : ℚ := mkRat 7 2

def tierAcclaimed : Str := "Acclaimed (4.5+)".toList

def tierHighly : Str := "Highly Rated (4.0-4.5)".toList

def tierWell : Str := "Well Rated (3.5-4.0)".toList

def tierAverage : Str := "Average (< 3.5)".toList

/-- `getRatingTier` from `dataLoader.ts`: a chain of lower-bound tests. -/
def getRatingTier (rating : ℚ) : Str :=
  if c45 ≤ rating then tierAcclaimed
  else if c40 ≤ rating then tierHighly
  else if c35 ≤ rating then tierWell
  else tierAverage

/-- The pure core of `loadBookData`: after CSV parsing, the loader keeps
exactly the rows passing the three positivity checks. -/
def loadBookData (parsed : List BookData) : List BookData :=
  parsed.filter (fun d =>
    decide (0 < d.pageCount) && decide (0 < d.rating_average) &&
      decide (0 < d.publicationYear))

def others : Str := "Others".toList

def movieAdapted : Str := "Adapted to Movie".toList

def movieNot : Str := "Not Adapted".toList

structure SankeyNode where
  id : Str
  name : Str
deriving DecidableEq

structure SankeyLink where
  source : Str
  target : Str
  value : ℕ
deriving DecidableEq

structure SankeyData where
  nodes : List SankeyNode
  links : List SankeyLink
deriving DecidableEq

/-- `topGenreList.includes(book.genre) ? book.genre : 'Others'`. -/
def processedGenreOf (topGenreList : List Str) (book : BookData) : Str :=
  if book.genre ∈ topGenreList then book.genre else others

/-- `book.adapted_to_movie ? 'Adapted to Movie' : 'Not Adapted'`. -/
def movieStatusOf (book : BookData) : Str :=
  if book.adapted_to_movie then movieAdapted else movieNot

/-- `links.set(key, (links.get(key) || 0) + 1)`. -/
def bump (links : List (Str × ℕ)) (key : Str) : List (Str × ℕ) :=
  mapSet links key ((mapGet links key).getD 0 + 1)

/-- The body of the `data.forEach` loop in `prepareSankeyData`: skip records
with a falsy genre or rating, otherwise register the three nodes and bump
the two link counters keyed by `id|id` strings. -/
def sankeyStep (topGenreList : List Str)
    (st : List (Str × Str) × List (Str × ℕ)) (book : BookData) :
    List (Str × Str) × List (Str × ℕ) :=
  if book.genre = [] ∨ book.rating_average = 0 then st
  else
    let processedGenre := processedGenreOf topGenreList book
    let ratingTier := getRatingTier book.rating_average
    let movieStatus := movieStatusOf book
    let genreId := 'g' :: '_' :: processedGenre
    let ratingId := 'r' :: '_' :: ratingTier
    let movieId := 'm' :: '_' :: movieStatus
    let nodesMap :=
      mapSet (mapSet (mapSet st.1 genreId processedGenre) ratingId ratingTier)
        movieId movieStatus
    let links := bump st.2 (genreId ++ '|' :: ratingId)
    let links := bump links (ratingId ++ '|' :: movieId)
    (nodesMap, links)

/-- `const [source, target] = key.split('|')`: the first two segments of
the key become the link's endpoints, keeping the aggregated value. -/
def linkOfEntry (e : Str × ℕ) : SankeyLink :=
  let parts := splitBar e.1
  ⟨parts.getD 0 [], parts.getD 1 [], e.2⟩

/-- `prepareSankeyData` from `dataLoader.ts`: aggregate link counters in a
`Map` keyed by `source|target`, then emit nodes and links; each link key is
cut back apart with `key.split('|')`, taking the first two segments. -/
def prepareSankeyData (data : List BookData) (topGenreList : List Str) :
    SankeyData :=
  let st := data.foldl (sankeyStep topGenreList) ([], [])
  { nodes := st.1.map (fun p => ⟨p.1, p.2⟩),
    links := st.2.map linkOfEntry }

structure GenreStats where
  count : ℕ
  totalRating : ℚ
  totalPages : ℚ
deriving DecidableEq

structure GenreData where
  genre : Str
  count : ℕ
  avgRating : ℚ
  avgPageCount : ℚ
deriving DecidableEq

/-- The body of the `data.forEach` loop in `aggregateByGenre`: skip falsy
genres, otherwise bump the per-genre accumulator in the `Map`. -/
def genreStep (m : List (Str × GenreStats)) (book : BookData) :
    List (Str × GenreStats) :=
  if book.genre = [] then m
  else
    let existing := (mapGet m book.genre).getD ⟨0, 0, 0⟩
    mapSet m book.genre
      ⟨existing.count + 1, existing.totalRating + book.rating_average,
        existing.totalPages + book.pageCount⟩

/-- `aggregateByGenre` from `dataLoader.ts`. -/
def aggregateByGenre (data : List BookData) : List GenreData :=
  (data.foldl genreStep []).map (fun p =>
    ⟨p.1, p.2.count, p.2.totalRating / (p.2.count : ℚ),
      p.2.totalPages / (p.2.count : ℚ)⟩)

/-- The ordering induced by the comparator `(a, b) => b.count - a.count`:
`a` comes no later than `b` when its count is no smaller. -/
def countGe (a b : GenreData) : Prop := b.count ≤ a.count

instance : DecidableRel countGe := fun a b => Nat.decLe b.count a.count

instance : IsTotal GenreData countGe :=
  ⟨fun a b => (le_total b.count a.count).imp id id⟩

instance : IsTrans GenreData countGe :=
  ⟨fun _ _ _ h1 h2 => le_trans h2 h1⟩

/-- `getTopGenres` from `dataLoader.ts`: sort the per-genre aggregates by
descending count, take the first `n`, keep the genre names. JavaScript
`Array.prototype.sort` is stable (ES2019), and a stable sort's output is
uniquely determined by the comparator, so the stable `insertionSort`
models it exactly. -/
def getTopGenres (data : List BookData) (n : ℕ) : List Str :=
  ((List.insertionSort countGe (aggregateByGenre data)).take n).map
    (fun d => d.genre)

/-- The selection state held by `Layout` in `App.tsx`. -/
structure SelectionState where
  selectedGenre : Option Str
  brushedIds : Finset ℤ
  selectedSankeyNode : Option Str
deriving DecidableEq

/-- The three `useState` initialisers: no genre, empty brush, no node. -/
def initialState : SelectionState := ⟨none, ∅, none⟩

/-- `handleGenreSelect` from `App.tsx`. -/
def handleGenreSelect (genre : Option Str) (_s : SelectionState) :
    SelectionState :=
  ⟨genre, ∅, none⟩

/-- `handleBrushChange` from `App.tsx`. -/
def handleBrushChange (ids : Finset ℤ) (s : SelectionState) : SelectionState :=
  ⟨s.selectedGenre, ids, none⟩

/-- `handleNodeSelect` from `App.tsx`. -/
def handleNodeSelect (nodeId : Option Str) (s : SelectionState) :
    SelectionState :=
  ⟨s.selectedGenre, ∅, nodeId⟩

/-- A click on Sankey node `x`: the click handler in `SankeyDiagram.tsx`
dispatches `onNodeSelect(selectedSankeyNode === d.id ? null : d.id)`. -/
def selectFlowNode (x : Str) (s : SelectionState) : SelectionState :=
  handleNodeSelect (if s.selectedSankeyNode = some x then none else some x) s

/-- The user-driven transitions of the coordinator. -/
inductive UiAction where
  | genreSelect (genre : Option Str)
  | brushChange (ids : Finset ℤ)
  | nodeSelect (nodeId : Option Str)
  | nodeClick (x : Str)

def stepAction (s : SelectionState) : UiAction → SelectionState
  | .genreSelect g => handleGenreSelect g s
  | .brushChange ids => handleBrushChange ids s
  | .nodeSelect nid => handleNodeSelect nid s
  | .nodeClick x => selectFlowNode x s

def runActions (acts : List UiAction) : SelectionState :=
  acts.foldl stepAction initialState

/-- The three derived node ids of a record in `sankeyHighlightIds`. -/
def tripleIds (topGenres : List Str) (b : BookData) : List Str :=
  ['g' :: '_' :: processedGenreOf topGenres b,
   'r' :: '_' :: getRatingTier b.rating_average,
   'm' :: '_' :: movieStatusOf b]

/-- `sankeyHighlightIds` from `App.tsx`: empty when no node is selected
(the guard `if (!selectedSankeyNode)` also fires on the falsy empty
string), else the ids of the records whose derived triple contains the
selected node id. -/
def sankeyHighlightIds (allBooks : List BookData) (topGenres : List Str)
    (sel : Option Str) : Finset ℤ :=
  match sel with
  | none => ∅
  | some nid =>
    if nid = [] then ∅
    else
      allBooks.foldl
        (fun result b =>
          if nid ∈ tripleIds topGenres b then insert b.id result else result) ∅

/-- `scatterHighlightIds` from `App.tsx`:
`brushedIds.size > 0 ? brushedIds : sankeyHighlightIds`. -/
def scatterHighlightIds (allBooks : List BookData) (topGenres : List Str)
    (s : SelectionState) : Finset ℤ :=
  if 0 < s.brushedIds.card then s.brushedIds
  else sankeyHighlightIds allBooks topGenres s.selectedSankeyNode

/-- At most one highlight source is active: an empty brush or no node. -/
def HighlightSourcesExclusive (s : SelectionState) : Prop :=
  s.brushedIds = ∅ ∨ s.selectedSankeyNode = none

/-- A record enters the Sankey aggregation unless its genre or rating is
falsy (the `if (!book.genre || !book.rating_average) return` guard). -/
def keptBook (b : BookData) : Bool :=
  ! (decide (b.genre = [] ∨ b.rating_average = 0))

/-- A well-formed link key: two bar-free segments joined by one bar, the
shape produced when neither node id contains the separator character. -/
def GoodKey (k : Str) : Prop :=
  ∃ a b, barFree a ∧ barFree b ∧ k = a ++ '|' :: b

/-- Sum of the counter values over the keys satisfying `p`. -/
def sumP (p : Str → Bool) (m : List (Str × ℕ)) : ℕ :=
  (m.map (fun e => if p e.1 then e.2 else 0)).sum

/-- Key-level view of "the emitted link's source is g_-prefixed". -/
def pgKey (k : Str) : Bool :=
  decide (((splitBar k).getD 0 []).take 2 = ['g', '_'])

/-- Key-level view of "the emitted link's target is the node `nid`". -/
def tgtIs (nid k : Str) : Bool := decide ((splitBar k).getD 1 [] = nid)

/-- Key-level view of "the emitted link's source is the node `nid`". -/
def srcIs (nid k : Str) : Bool := decide ((splitBar k).getD 0 [] = nid)

/-- Number of records of the list carrying exactly this genre. -/
def genreFreq (data : List BookData) (g : Str) : ℕ :=
  data.countP (fun b => decide (b.genre = g))

/-- All distinct non-empty genres of the data, most frequent first: the
full sorted sequence of which `getTopGenres` returns a prefix. -/
def sortedGenres (data : List BookData) : List Str :=
  (List.insertionSort countGe (aggregateByGenre data)).map (fun d => d.genre)

/-- The count accumulated for genre `g` in the aggregation map. -/
def countIn (m : List (Str × GenreStats)) (g : Str) : ℕ :=
  ((mapGet m g).getD ⟨0, 0, 0⟩).count

/-- Two records whose second genre contains the link-key separator `'|'`:
genre `"A"` rated 5 (Acclaimed) and genre `"A|r_Acclaimed (4.5+)"`
rated 3 (Average). -/
def c5Books : List BookData :=
  [⟨1, ['A'], 5, 1, 1, false⟩,
   ⟨2, "A|r_Acclaimed (4.5+)".toList, 3, 1, 1, false⟩]

def c5TopGenres : List Str := [['A'], "A|r_Acclaimed (4.5+)".toList]

/-- The same adversarial shape, used for the flow-conservation claim. -/
def c10Books : List BookData :=
  [⟨1, ['A'], 5, 1, 1, false⟩,
   ⟨2, "A|r_Acclaimed (4.5+)".toList, 3, 1, 1, false⟩]

def c10TopGenres : List Str := [['A'], "A|r_Acclaimed (4.5+)".toList]

/-- A state in which node `"x"` is already selected. -/
def c3State : SelectionState := ⟨none, ∅, some ['x']⟩

theorem c45_eq : c45 = 4.5 := by norm_num [c45, Rat.mkRat_eq_div]

theorem c40_eq : c40 = 4.0 := by norm_num [c40, Rat.mkRat_eq_div]

theorem c35_eq : c35 = 3.5 := by norm_num [c35, Rat.mkRat_eq_div]

theorem stepAction_exclusive (s : SelectionState) (a : UiAction) :
    HighlightSourcesExclusive (stepAction s a) := by
  cases a with
  | genreSelect g => exact Or.inl rfl
  | brushChange ids => exact Or.inr rfl
  | nodeSelect nid => exact Or.inl rfl
  | nodeClick x => exact Or.inl rfl

theorem foldl_stepAction_exclusive (acts : List UiAction) (s : SelectionState)
    (hs : HighlightSourcesExclusive s) :
    HighlightSourcesExclusive (acts.foldl stepAction s) := by
  induction acts generalizing s with
  | nil => exact hs
  | cons a rest ih => exact ih _ (stepAction_exclusive s a)

/-- C2: every state reachable from the initial state by the coordinator's
transitions has at most one active highlight source (empty brush or no
selected node); moreover a brush clears the node selection, a node
selection clears the brush, and a genre change clears both. -/
theorem C2_highlight_sources_exclusive (acts : List UiAction) :
    ((runActions acts).brushedIds = ∅ ∨
      (runActions acts).selectedSankeyNode = none) ∧
    (∀ s ids, (handleBrushChange ids s).selectedSankeyNode = none) ∧
    (∀ s nid, (handleNodeSelect nid s).brushedIds = ∅) ∧
    (∀ s x, (selectFlowNode x s).brushedIds = ∅) ∧
    (∀ s g, (handleGenreSelect g s).brushedIds = ∅ ∧
      (handleGenreSelect g s).selectedSankeyNode = none) := by
  refine ⟨foldl_stepAction_exclusive acts initialState (Or.inl rfl),
    fun s ids => rfl, fun s nid => rfl, fun s x => rfl, fun s g => ⟨rfl, rfl⟩⟩

/-- C4: `handleGenreSelect g` always produces the state with the chosen
genre, an empty brush and no selected node, regardless of the prior state;
in particular it is idempotent. -/
theorem C4_selectGenre_resets (s : SelectionState) (g : Option Str) :
    handleGenreSelect g s = ⟨g, ∅, none⟩ ∧
    (handleGenreSelect g s).brushedIds = ∅ ∧
    (handleGenreSelect g s).selectedSankeyNode = none ∧
    handleGenreSelect g (handleGenreSelect g s) = handleGenreSelect g s :=
  ⟨rfl, rfl, rfl, rfl⟩

/-- C3 counterexample: starting from a state in which node `"x"` is already
selected, two successive clicks on `"x"` end with `"x"` selected again, not
with a cleared selection, so the unrestricted double-click law fails. -/
theorem C3_counterexample :
    ¬ (selectFlowNode ['x'] (selectFlowNode ['x'] c3State)).selectedSankeyNode
        = none := by decide

/-- C3 (amended): clicking node `x` toggles — from a state in which `x` is
not the selected node, a click selects `x` and clears the brush, and a
second click returns the selection to `none`; from a state in which `x` is
selected, a single click clears the selection and the brush. -/
theorem C3_selectFlowNode_toggle (s : SelectionState) (x : Str)
    (h : s.selectedSankeyNode ≠ some x) :
    (selectFlowNode x (selectFlowNode x s)).selectedSankeyNode = none ∧
    (selectFlowNode x s).selectedSankeyNode = some x ∧
    (selectFlowNode x s).brushedIds = ∅ ∧
    (∀ t : SelectionState, t.selectedSankeyNode = some x →
      (selectFlowNode x t).selectedSankeyNode = none ∧
        (selectFlowNode x t).brushedIds = ∅) := by
  refine ⟨?_, ?_, ?_, ?_⟩
  · simp [selectFlowNode, handleNodeSelect, if_neg h]
  · simp [selectFlowNode, handleNodeSelect, if_neg h]
  · simp [selectFlowNode, handleNodeSelect]
  · intro t ht
    simp [selectFlowNode, handleNodeSelect, ht]

theorem C3_witness :
    (selectFlowNode ['x'] (selectFlowNode ['x'] initialState)).selectedSankeyNode
      = none :=
  (C3_selectFlowNode_toggle initialState ['x'] (by decide)).1

theorem mem_highlight_foldl (books : List BookData) (tg : List Str)
    (nid : Str) (acc : Finset ℤ) (x : ℤ) :
    (x ∈ books.foldl
        (fun result b =>
          if nid ∈ tripleIds tg b then insert b.id result else result) acc) ↔
      x ∈ acc ∨ ∃ b ∈ books, b.id = x ∧ nid ∈ tripleIds tg b := by
  induction books generalizing acc with
  | nil => simp
  | cons b rest ih =>
    simp only [List.foldl_cons]
    rw [ih]
    by_cases hb : nid ∈ tripleIds tg b
    · simp only [if_pos hb, Finset.mem_insert, List.mem_cons]
      constructor
      · rintro ((rfl | h) | h)
        · exact Or.inr ⟨b, Or.inl rfl, rfl, hb⟩
        · exact Or.inl h
        · obtain ⟨c, hc, hcx, hcnid⟩ := h
          exact Or.inr ⟨c, Or.inr hc, hcx, hcnid⟩
      · rintro (h | ⟨c, (rfl | hc), hcx, hcnid⟩)
        · exact Or.inl (Or.inr h)
        · exact Or.inl (Or.inl hcx.symm)
        · exact Or.inr ⟨c, hc, hcx, hcnid⟩
    · simp only [if_neg hb, List.mem_cons]
      constructor
      · rintro (h | ⟨c, hc, hcx, hcnid⟩)
        · exact Or.inl h
        · exact Or.inr ⟨c, Or.inr hc, hcx, hcnid⟩
      · rintro (h | ⟨c, (rfl | hc), hcx, hcnid⟩)
        · exact Or.inl h
        · exact absurd hcnid hb
        · exact Or.inr ⟨c, hc, hcx, hcnid⟩

theorem nil_not_mem_tripleIds (tg : List Str) (b : BookData) :
    ([] : Str) ∉ tripleIds tg b := by
  simp [tripleIds]

/-- C1: the scatter highlight derivation returns the brush verbatim when it
is non-empty; otherwise, with a selected Sankey node, it contains exactly
the ids of the records whose derived node-id triple contains that node; and
otherwise (in particular in the initial state) it is empty. -/
theorem C1_computeHighlightSet (allBooks : List BookData)
    (topGenres : List Str) (s : SelectionState) :
    (0 < s.brushedIds.card →
      scatterHighlightIds allBooks topGenres s = s.brushedIds) ∧
    (s.brushedIds = ∅ → ∀ nid, s.selectedSankeyNode = some nid →
      ∀ x : ℤ, x ∈ scatterHighlightIds allBooks topGenres s ↔
        ∃ b ∈ allBooks, b.id = x ∧ nid ∈ tripleIds topGenres b) ∧
    (s.brushedIds = ∅ → s.selectedSankeyNode = none →
      scatterHighlightIds allBooks topGenres s = ∅) ∧
    scatterHighlightIds allBooks topGenres initialState = ∅ := by
  refine ⟨fun hpos => ?_, fun hemp nid hnid x => ?_, fun hemp hnone => ?_, ?_⟩
  · unfold scatterHighlightIds
    rw [if_pos hpos]
  · have hcard : ¬ 0 < s.brushedIds.card := by simp [hemp]
    unfold scatterHighlightIds
    rw [if_neg hcard, hnid]
    by_cases hnil : nid = []
    · subst hnil
      simp only [sankeyHighlightIds]
      rw [if_pos trivial]
      simp only [Finset.not_mem_empty, false_iff]
      rintro ⟨b, _, _, hmem⟩
      exact nil_not_mem_tripleIds topGenres b hmem
    · simp only [sankeyHighlightIds]
      rw [if_neg hnil, mem_highlight_foldl]
      simp
  · have hcard : ¬ 0 < s.brushedIds.card := by simp [hemp]
    unfold scatterHighlightIds
    rw [if_neg hcard, hnone]
    rfl
  · rfl

theorem C1_witness :
    scatterHighlightIds [] [] ⟨none, {7}, none⟩ = {7} :=
  (C1_computeHighlightSet [] [] ⟨none, {7}, none⟩).1 (by decide)

/-- C9: when the brush holds only stale ids (none of them the id of any
record in the current list), the highlight computation is well defined and
matches no record of the list. -/
theorem C9_stale_brush (allBooks : List BookData) (topGenres : List Str)
    (s : SelectionState) (hne : s.brushedIds.Nonempty)
    (hstale : ∀ i ∈ s.brushedIds, ∀ b ∈ allBooks, b.id ≠ i) :
    ∀ b ∈ allBooks, b.id ∉ scatterHighlightIds allBooks topGenres s := by
  intro b hb hmem
  have hpos : 0 < s.brushedIds.card := Finset.card_pos.mpr hne
  rw [scatterHighlightIds, if_pos hpos] at hmem
  exact hstale b.id hmem b hb rfl

theorem C9_witness :
    (⟨1, [], 0, 0, 0, false⟩ : BookData).id ∉
      scatterHighlightIds [⟨1, [], 0, 0, 0, false⟩] [] ⟨none, {2}, none⟩ :=
  C9_stale_brush [⟨1, [], 0, 0, 0, false⟩] [] ⟨none, {2}, none⟩
    (by decide) (by decide) ⟨1, [], 0, 0, 0, false⟩ (by decide)

/-- C7: every record surviving `loadBookData`'s filter has positive page
count, positive average rating and positive publication year, so no record
violating these constraints reaches any downstream aggregation. -/
theorem C7_loadBookData_positive (parsed : List BookData) (b : BookData)
    (hb : b ∈ loadBookData parsed) :
    0 < b.pageCount ∧ 0 < b.rating_average ∧ 0 < b.publicationYear := by
  rw [loadBookData, List.mem_filter] at hb
  simp only [Bool.and_eq_true, decide_eq_true_eq] at hb
  exact ⟨hb.2.1.1, hb.2.1.2, hb.2.2⟩

/-- C6: over the rating range [0, 5], `getRatingTier` lands in the
Acclaimed tier exactly on [4.5, 5], Highly Rated exactly on [4.0, 4.5),
Well Rated exactly on [3.5, 4.0) and Average exactly on [0, 3.5); in
particular rating 4.6 is Acclaimed and rating 3.0 is Average. -/
theorem C6_getRatingTier_tiers (r : ℚ) (h0 : 0 ≤ r) (h5 : r ≤ 5) :
    (getRatingTier r = tierAcclaimed ↔ 4.5 ≤ r ∧ r ≤ 5) ∧
    (getRatingTier r = tierHighly ↔ 4.0 ≤ r ∧ r < 4.5) ∧
    (getRatingTier r = tierWell ↔ 3.5 ≤ r ∧ r < 4.0) ∧
    (getRatingTier r = tierAverage ↔ 0 ≤ r ∧ r < 3.5) ∧
    getRatingTier 4.6 = tierAcclaimed ∧ getRatingTier 3.0 = tierAverage := by
  have d21 : tierHighly ≠ tierAcclaimed := by decide
  have d31 : tierWell ≠ tierAcclaimed := by decide
  have d41 : tierAverage ≠ tierAcclaimed := by decide
  have d12 : tierAcclaimed ≠ tierHighly := by decide
  have d32 : tierWell ≠ tierHighly := by decide
  have d42 : tierAverage ≠ tierHighly := by decide
  have d13 : tierAcclaimed ≠ tierWell := by decide
  have d23 : tierHighly ≠ tierWell := by decide
  have d43 : tierAverage ≠ tierWell := by decide
  have d14 : tierAcclaimed ≠ tierAverage := by decide
  have d24 : tierHighly ≠ tierAverage := by decide
  have d34 : tierWell ≠ tierAverage := by decide
  have hA : getRatingTier 4.6 = tierAcclaimed := by
    unfold getRatingTier
    rw [c45_eq, if_pos (by norm_num)]
  have hB : getRatingTier 3.0 = tierAverage := by
    unfold getRatingTier
    rw [c45_eq, c40_eq, c35_eq, if_neg (by norm_num), if_neg (by norm_num),
      if_neg (by norm_num)]
  refine ⟨?_, ?_, ?_, ?_, hA, hB⟩ <;>
    · unfold getRatingTier
      rw [c45_eq, c40_eq, c35_eq]
      split_ifs with h1 h2 h3 <;>
        constructor <;> intro h <;>
        first
          | exact absurd h (by assumption)
          | rfl
          | exact ⟨by linarith, by linarith⟩
          | (exfalso; obtain ⟨ha, hb⟩ := h; linarith)

theorem C6_witness : (4.5 : ℚ) ≤ 5 ∧ (5 : ℚ) ≤ 5 :=
  (C6_getRatingTier_tiers 5 (by decide) (by decide)).1.mp (by decide)

theorem C7_witness :
    0 < (⟨1, [], 1, 2, 3, false⟩ : BookData).pageCount ∧
      0 < (⟨1, [], 1, 2, 3, false⟩ : BookData).rating_average ∧
      0 < (⟨1, [], 1, 2, 3, false⟩ : BookData).publicationYear :=
  C7_loadBookData_positive [⟨1, [], 1, 2, 3, false⟩] ⟨1, [], 1, 2, 3, false⟩
    (by decide)

theorem mem_mapSet {α : Type} (m : List (Str × α)) (k : Str) (v : α) :
    ∀ e ∈ mapSet m k v, e.1 = k ∨ e ∈ m := by
  induction m with
  | nil =>
    intro e he
    simp only [mapSet, List.mem_singleton] at he
    exact Or.inl (by rw [he])
  | cons hd tl ih =>
    obtain ⟨k', v'⟩ := hd
    intro e he
    simp only [mapSet] at he
    by_cases hk : k' = k
    · rw [if_pos hk] at he
      rcases List.mem_cons.mp he with rfl | hmem
      · exact Or.inl rfl
      · exact Or.inr (List.mem_cons_of_mem _ hmem)
    · rw [if_neg hk] at he
      rcases List.mem_cons.mp he with rfl | hmem
      · exact Or.inr (List.mem_cons_self _ _)
      · rcases ih e hmem with h | h
        · exact Or.inl h
        · exact Or.inr (List.mem_cons_of_mem _ h)

theorem pairwise_keys_mapSet {α : Type} (m : List (Str × α)) (k : Str) (v : α)
    (h : m.Pairwise (fun e1 e2 => e1.1 ≠ e2.1)) :
    (mapSet m k v).Pairwise (fun e1 e2 => e1.1 ≠ e2.1) := by
  induction m with
  | nil => simp [mapSet]
  | cons hd tl ih =>
    obtain ⟨k', v'⟩ := hd
    rw [List.pairwise_cons] at h
    simp only [mapSet]
    by_cases hk : k' = k
    · rw [if_pos hk, List.pairwise_cons]
      exact ⟨fun e he => hk ▸ h.1 e he, h.2⟩
    · rw [if_neg hk, List.pairwise_cons]
      refine ⟨fun e he => ?_, ih h.2⟩
      rcases mem_mapSet tl k v e he with h1 | h1
      · rw [h1]
        exact hk
      · exact h.1 e h1

theorem mapGet_mapSet_self {α : Type} (m : List (Str × α)) (k : Str) (v : α) :
    mapGet (mapSet m k v) k = some v := by
  induction m with
  | nil => simp [mapSet, mapGet]
  | cons hd tl ih =>
    obtain ⟨k', v'⟩ := hd
    simp only [mapSet]
    by_cases hk : k' = k
    · rw [if_pos hk]
      simp [mapGet]
    · rw [if_neg hk]
      simp only [mapGet]
      rw [if_neg hk]
      exact ih

theorem mapGet_mapSet_ne {α : Type} (m : List (Str × α)) (k g : Str) (v : α)
    (h : k ≠ g) : mapGet (mapSet m k v) g = mapGet m g := by
  induction m with
  | nil => simp [mapSet, mapGet, if_neg h]
  | cons hd tl ih =>
    obtain ⟨k', v'⟩ := hd
    simp only [mapSet]
    by_cases hk : k' = k
    · rw [if_pos hk]
      simp only [mapGet]
      rw [if_neg h, if_neg (hk ▸ h)]
    · rw [if_neg hk]
      simp only [mapGet]
      by_cases hg : k' = g
      · rw [if_pos hg, if_pos hg]
      · rw [if_neg hg, if_neg hg]
        exact ih

theorem splitBar_ne_nil (s : Str) : splitBar s ≠ [] := by
  cases s with
  | nil => simp [splitBar]
  | cons c rest =>
    simp only [splitBar]
    by_cases hc : c = '|'
    · rw [if_pos hc]
      exact List.cons_ne_nil _ _
    · rw [if_neg hc]
      cases h : splitBar rest with
      | nil => exact List.cons_ne_nil _ _
      | cons p ps => exact List.cons_ne_nil _ _

theorem getD0_splitBar_cons (c : Char) (s : Str) (hc : ¬ c = '|') :
    (splitBar (c :: s)).getD 0 [] = c :: (splitBar s).getD 0 [] := by
  simp only [splitBar]
  rw [if_neg hc]
  cases h : splitBar s with
  | nil => simp
  | cons p ps => simp

theorem splitBar_barFree (s : Str) (h : barFree s) : splitBar s = [s] := by
  induction s with
  | nil => rfl
  | cons c rest ih =>
    simp only [barFree, List.mem_cons, not_or] at h
    have hc : ¬ c = '|' := fun hce => h.1 hce.symm
    have ht : splitBar rest = [rest] := ih h.2
    simp only [splitBar]
    rw [if_neg hc, ht]

theorem splitBar_append_bar (a b : Str) (ha : barFree a) :
    splitBar (a ++ '|' :: b) = a :: splitBar b := by
  induction a with
  | nil =>
    simp only [List.nil_append, splitBar]
    split
    · rfl
    · exfalso
      simp_all
  | cons c rest ih =>
    simp only [barFree, List.mem_cons, not_or] at ha
    have hc : ¬ c = '|' := fun hce => ha.1 hce.symm
    have ht : splitBar (rest ++ '|' :: b) = rest :: splitBar b := ih ha.2
    show splitBar (c :: (rest ++ '|' :: b)) = (c :: rest) :: splitBar b
    simp only [splitBar]
    rw [if_neg hc, ht]

theorem GoodKey_eq (k : Str) (hk : GoodKey k) :
    k = (splitBar k).getD 0 [] ++ '|' :: (splitBar k).getD 1 [] := by
  obtain ⟨a, b, ha, hb, rfl⟩ := hk
  rw [splitBar_append_bar a b ha, splitBar_barFree b hb]
  rfl

theorem sumP_bump (p : Str → Bool) (m : List (Str × ℕ)) (k : Str) :
    sumP p (bump m k) = sumP p m + (if p k then 1 else 0) := by
  unfold bump
  induction m with
  | nil =>
    simp only [mapGet, mapSet, Option.getD_none, sumP, List.map_cons,
      List.map_nil, List.sum_cons, List.sum_nil]
    cases p k <;> simp
  | cons hd tl ih =>
    obtain ⟨k', v'⟩ := hd
    simp only [mapGet, mapSet]
    by_cases hk : k' = k
    · rw [if_pos hk, if_pos hk]
      subst hk
      simp only [Option.getD_some, sumP, List.map_cons, List.sum_cons]
      cases hp : p k' <;> simp [hp] <;> omega
    · rw [if_neg hk, if_neg hk]
      simp only [sumP, List.map_cons, List.sum_cons]
      unfold sumP at ih
      rw [ih]
      omega

theorem keptBook_eq_false (b : BookData)
    (hb : b.genre = [] ∨ b.rating_average = 0) : keptBook b = false := by
  unfold keptBook
  rw [decide_eq_true hb]
  rfl

theorem keptBook_eq_true (b : BookData)
    (hb : ¬ (b.genre = [] ∨ b.rating_average = 0)) : keptBook b = true := by
  unfold keptBook
  rw [decide_eq_false hb]
  rfl

theorem sankeyStep_skip (tg : List Str)
    (st : List (Str × Str) × List (Str × ℕ)) (b : BookData)
    (hb : b.genre = [] ∨ b.rating_average = 0) : sankeyStep tg st b = st := by
  rw [sankeyStep, if_pos hb]

theorem sankeyStep_links (tg : List Str)
    (st : List (Str × Str) × List (Str × ℕ)) (b : BookData)
    (hb : ¬ (b.genre = [] ∨ b.rating_average = 0)) :
    (sankeyStep tg st b).2 =
      bump (bump st.2
          (('g' :: '_' :: processedGenreOf tg b) ++ '|' ::
            ('r' :: '_' :: getRatingTier b.rating_average)))
        (('r' :: '_' :: getRatingTier b.rating_average) ++ '|' ::
          ('m' :: '_' :: movieStatusOf b)) := by
  rw [sankeyStep, if_neg hb]

theorem barFree_cons (c : Char) (s : Str) (hc : ¬ c = '|') (hs : barFree s) :
    barFree (c :: s) := by
  unfold barFree at *
  simp only [List.mem_cons, not_or]
  exact ⟨fun h => hc h.symm, hs⟩

theorem barFree_processedGenre (tg : List Str) (b : BookData)
    (h : barFree b.genre) : barFree (processedGenreOf tg b) := by
  unfold processedGenreOf
  split
  · exact h
  · decide

theorem barFree_tier (r : ℚ) : barFree (getRatingTier r) := by
  unfold getRatingTier
  split_ifs <;> decide

theorem barFree_movie (b : BookData) : barFree (movieStatusOf b) := by
  unfold movieStatusOf
  split <;> decide

theorem getD0_take2 (c1 c2 : Char) (s : Str) (h1 : ¬ c1 = '|')
    (h2 : ¬ c2 = '|') :
    ((splitBar (c1 :: c2 :: s)).getD 0 []).take 2 = [c1, c2] := by
  rw [getD0_splitBar_cons _ _ h1, getD0_splitBar_cons _ _ h2]
  rfl

theorem pgKey_key_g (pg rId : Str) :
    pgKey (('g' :: '_' :: pg) ++ '|' :: rId) = true := by
  unfold pgKey
  exact decide_eq_true (getD0_take2 'g' '_' (pg ++ '|' :: rId)
    (by decide) (by decide))

theorem pgKey_key_r (t mId : Str) :
    pgKey (('r' :: '_' :: t) ++ '|' :: mId) = false := by
  unfold pgKey
  apply decide_eq_false
  intro h
  have h2 : ((splitBar ('r' :: '_' :: (t ++ '|' :: mId))).getD 0 []).take 2
      = ['r', '_'] := getD0_take2 'r' '_' (t ++ '|' :: mId) (by decide) (by decide)
  have h3 : (['r', '_'] : Str) = ['g', '_'] := h2 ▸ h
  exact absurd h3 (by decide)

theorem tgtIs_key (nid a b : Str) (ha : barFree a) (hb : barFree b) :
    tgtIs nid (a ++ '|' :: b) = decide (b = nid) := by
  unfold tgtIs
  rw [splitBar_append_bar a b ha, splitBar_barFree b hb]
  rfl

theorem srcIs_key (nid a b : Str) (ha : barFree a) :
    srcIs nid (a ++ '|' :: b) = decide (a = nid) := by
  unfold srcIs
  rw [splitBar_append_bar a b ha]
  rfl

theorem links_pg_sum (m : List (Str × ℕ)) :
    ((m.map linkOfEntry).map
        (fun l => if l.source.take 2 = ['g', '_'] then l.value else 0)).sum =
      sumP pgKey m := by
  induction m with
  | nil => rfl
  | cons e tl ih =>
    simp only [List.map_cons, List.sum_cons]
    rw [ih]
    show _ + _ = sumP pgKey (e :: tl)
    unfold sumP
    simp only [List.map_cons, List.sum_cons]
    congr 1
    by_cases h : ((splitBar e.1).getD 0 []).take 2 = ['g', '_']
    · simp [linkOfEntry, pgKey, h]
    · simp [linkOfEntry, pgKey, h]

theorem links_tgt_sum (m : List (Str × ℕ)) (nid : Str) :
    ((m.map linkOfEntry).map
        (fun l => if l.target = nid then l.value else 0)).sum =
      sumP (tgtIs nid) m := by
  induction m with
  | nil => rfl
  | cons e tl ih =>
    simp only [List.map_cons, List.sum_cons]
    rw [ih]
    show _ + _ = sumP (tgtIs nid) (e :: tl)
    unfold sumP
    simp only [List.map_cons, List.sum_cons]
    congr 1
    by_cases h : (splitBar e.1).getD 1 [] = nid
    · simp [linkOfEntry, tgtIs, h]
    · simp [linkOfEntry, tgtIs, h]

theorem links_src_sum (m : List (Str × ℕ)) (nid : Str) :
    ((m.map linkOfEntry).map
        (fun l => if l.source = nid then l.value else 0)).sum =
      sumP (srcIs nid) m := by
  induction m with
  | nil => rfl
  | cons e tl ih =>
    simp only [List.map_cons, List.sum_cons]
    rw [ih]
    show _ + _ = sumP (srcIs nid) (e :: tl)
    unfold sumP
    simp only [List.map_cons, List.sum_cons]
    congr 1
    by_cases h : (splitBar e.1).getD 0 [] = nid
    · simp [linkOfEntry, srcIs, h]
    · simp [linkOfEntry, srcIs, h]

theorem sumP_pgKey_foldl (tg : List Str) (data : List BookData)
    (st : List (Str × Str) × List (Str × ℕ)) :
    sumP pgKey (data.foldl (sankeyStep tg) st).2 =
      sumP pgKey st.2 + data.countP keptBook := by
  induction data generalizing st with
  | nil => simp
  | cons b rest ih =>
    rw [List.foldl_cons, List.countP_cons, ih]
    by_cases hb : b.genre = [] ∨ b.rating_average = 0
    · rw [sankeyStep_skip tg st b hb]
      simp [keptBook_eq_false b hb]
    · rw [sankeyStep_links tg st b hb, sumP_bump, sumP_bump, pgKey_key_g,
        pgKey_key_r]
      simp only [keptBook_eq_true b hb]
      simp
      omega

theorem mem_bump (m : List (Str × ℕ)) (k : Str) :
    ∀ e ∈ bump m k, e.1 = k ∨ e ∈ m := by
  intro e he
  unfold bump at he
  exact mem_mapSet m k _ e he

theorem pairwise_keys_bump (m : List (Str × ℕ)) (k : Str)
    (h : m.Pairwise (fun e1 e2 => e1.1 ≠ e2.1)) :
    (bump m k).Pairwise (fun e1 e2 => e1.1 ≠ e2.1) := by
  unfold bump
  exact pairwise_keys_mapSet m k _ h

theorem flow_foldl (tg : List Str) (nid : Str)
    (hr : nid.take 2 = ['r', '_']) (data : List BookData) :
    ∀ st : List (Str × Str) × List (Str × ℕ),
      (∀ b ∈ data, barFree b.genre) →
      sumP (tgtIs nid) (data.foldl (sankeyStep tg) st).2 =
          sumP (tgtIs nid) st.2 + data.countP
            (fun b => keptBook b &&
              decide ('r' :: '_' :: getRatingTier b.rating_average = nid)) ∧
      sumP (srcIs nid) (data.foldl (sankeyStep tg) st).2 =
          sumP (srcIs nid) st.2 + data.countP
            (fun b => keptBook b &&
              decide ('r' :: '_' :: getRatingTier b.rating_average = nid)) := by
  induction data with
  | nil =>
    intro st _
    simp
  | cons b rest ih =>
    intro st hclean
    have hcb : barFree b.genre := hclean b (List.mem_cons_self b rest)
    have hcr : ∀ x ∈ rest, barFree x.genre :=
      fun x hx => hclean x (List.mem_cons_of_mem b hx)
    rw [List.foldl_cons, List.countP_cons]
    by_cases hb : b.genre = [] ∨ b.rating_average = 0
    · obtain ⟨iT, iS⟩ := ih st hcr
      rw [sankeyStep_skip tg st b hb]
      constructor
      · rw [iT]
        simp [keptBook_eq_false b hb]
      · rw [iS]
        simp [keptBook_eq_false b hb]
    · obtain ⟨iT, iS⟩ := ih (sankeyStep tg st b) hcr
      have hga : barFree ('g' :: '_' :: processedGenreOf tg b) :=
        barFree_cons _ _ (by decide)
          (barFree_cons _ _ (by decide) (barFree_processedGenre tg b hcb))
      have hra : barFree ('r' :: '_' :: getRatingTier b.rating_average) :=
        barFree_cons _ _ (by decide)
          (barFree_cons _ _ (by decide) (barFree_tier _))
      have hma : barFree ('m' :: '_' :: movieStatusOf b) :=
        barFree_cons _ _ (by decide)
          (barFree_cons _ _ (by decide) (barFree_movie _))
      have hgne : decide (('g' :: '_' :: processedGenreOf tg b) = nid)
          = false := by
        apply decide_eq_false
        intro h
        rw [← h] at hr
        have h2 : (['g', '_'] : Str) = ['r', '_'] := hr
        exact absurd h2 (by decide)
      have hmne : decide (('m' :: '_' :: movieStatusOf b) = nid) = false := by
        apply decide_eq_false
        intro h
        rw [← h] at hr
        have h2 : (['m', '_'] : Str) = ['r', '_'] := hr
        exact absurd h2 (by decide)
      constructor
      · rw [iT, sankeyStep_links tg st b hb, sumP_bump, sumP_bump,
          tgtIs_key nid _ _ hga hra, tgtIs_key nid _ _ hra hma, hmne]
        simp only [keptBook_eq_true b hb, Bool.true_and]
        cases hd : decide ('r' :: '_' :: getRatingTier b.rating_average = nid) <;>
          simp <;> omega
      · rw [iS, sankeyStep_links tg st b hb, sumP_bump, sumP_bump,
          srcIs_key nid _ _ hga, srcIs_key nid _ _ hra, hgne]
        simp only [keptBook_eq_true b hb, Bool.true_and]
        cases hd : decide ('r' :: '_' :: getRatingTier b.rating_average = nid) <;>
          simp <;> omega

theorem pairwise_linkOf (m : List (Str × ℕ))
    (hg : ∀ e ∈ m, GoodKey e.1)
    (hp : m.Pairwise (fun e1 e2 => e1.1 ≠ e2.1)) :
    (m.map linkOfEntry).Pairwise
      (fun l1 l2 => (l1.source, l1.target) ≠ (l2.source, l2.target)) := by
  rw [List.pairwise_map]
  refine List.Pairwise.imp_of_mem ?_ hp
  intro e1 e2 h1 h2 hne hpair
  apply hne
  have e1eq := GoodKey_eq e1.1 (hg e1 h1)
  have e2eq := GoodKey_eq e2.1 (hg e2 h2)
  simp only [linkOfEntry, Prod.mk.injEq] at hpair
  obtain ⟨hs, ht⟩ := hpair
  calc e1.1
      = (splitBar e1.1).getD 0 [] ++ '|' :: (splitBar e1.1).getD 1 [] := e1eq
    _ = (splitBar e2.1).getD 0 [] ++ '|' :: (splitBar e2.1).getD 1 [] := by
        rw [hs, ht]
    _ = e2.1 := e2eq.symm

theorem sankey_fold_good (tg : List Str) (data : List BookData) :
    ∀ st : List (Str × Str) × List (Str × ℕ),
      (∀ b ∈ data, barFree b.genre) →
      (∀ e ∈ st.2, GoodKey e.1) →
      st.2.Pairwise (fun e1 e2 => e1.1 ≠ e2.1) →
      (∀ e ∈ (data.foldl (sankeyStep tg) st).2, GoodKey e.1) ∧
        (data.foldl (sankeyStep tg) st).2.Pairwise
          (fun e1 e2 => e1.1 ≠ e2.1) := by
  induction data with
  | nil =>
    intro st _ hg hp
    exact ⟨hg, hp⟩
  | cons b rest ih =>
    intro st hclean hg hp
    have hcb : barFree b.genre := hclean b (List.mem_cons_self b rest)
    have hcr : ∀ x ∈ rest, barFree x.genre :=
      fun x hx => hclean x (List.mem_cons_of_mem b hx)
    rw [List.foldl_cons]
    by_cases hb : b.genre = [] ∨ b.rating_average = 0
    · rw [sankeyStep_skip tg st b hb]
      exact ih st hcr hg hp
    · have hga : barFree ('g' :: '_' :: processedGenreOf tg b) :=
        barFree_cons _ _ (by decide)
          (barFree_cons _ _ (by decide) (barFree_processedGenre tg b hcb))
      have hra : barFree ('r' :: '_' :: getRatingTier b.rating_average) :=
        barFree_cons _ _ (by decide)
          (barFree_cons _ _ (by decide) (barFree_tier _))
      have hma : barFree ('m' :: '_' :: movieStatusOf b) :=
        barFree_cons _ _ (by decide)
          (barFree_cons _ _ (by decide) (barFree_movie _))
      have hGood1 : GoodKey (('g' :: '_' :: processedGenreOf tg b) ++ '|' ::
          ('r' :: '_' :: getRatingTier b.rating_average)) :=
        ⟨_, _, hga, hra, rfl⟩
      have hGood2 : GoodKey (('r' :: '_' :: getRatingTier b.rating_average) ++
          '|' :: ('m' :: '_' :: movieStatusOf b)) :=
        ⟨_, _, hra, hma, rfl⟩
      refine ih (sankeyStep tg st b) hcr ?_ ?_
      · rw [sankeyStep_links tg st b hb]
        intro e he
        rcases mem_bump _ _ e he with h1 | h1
        · rw [h1]
          exact hGood2
        · rcases mem_bump _ _ e h1 with h2 | h2
          · rw [h2]
            exact hGood1
          · exact hg e h2
      · rw [sankeyStep_links tg st b hb]
        exact pairwise_keys_bump _ _ (pairwise_keys_bump _ _ hp)

/-- C5 (amended): in `prepareSankeyData`, provided no record's genre
contains the link-key separator `'|'`, the emitted link list has at most one
entry per distinct (source, target) pair; unconditionally, the sum of the
values of the links whose source is a `g_`-prefixed (genre-layer) node
equals the number of records with non-empty genre and non-zero rating, and
a record with missing genre is skipped entirely (removing it from the input
leaves the output unchanged). -/
theorem C5_prepareSankeyData (data : List BookData) (tg : List Str) :
    ((∀ b ∈ data, barFree b.genre) →
      (prepareSankeyData data tg).links.Pairwise
        (fun l1 l2 => (l1.source, l1.target) ≠ (l2.source, l2.target))) ∧
    ((prepareSankeyData data tg).links.map
        (fun l => if l.source.take 2 = ['g', '_'] then l.value else 0)).sum =
      data.countP keptBook ∧
    (∀ (pre post : List BookData) (b : BookData), b.genre = [] →
      prepareSankeyData (pre ++ b :: post) tg =
        prepareSankeyData (pre ++ post) tg) := by
  refine ⟨fun hclean => ?_, ?_, ?_⟩
  · simp only [prepareSankeyData]
    have h := sankey_fold_good tg data ([], []) hclean
      (by intro e he; simp at he) (by simp)
    exact pairwise_linkOf _ h.1 h.2
  · simp only [prepareSankeyData]
    rw [links_pg_sum, sumP_pgKey_foldl tg data ([], [])]
    rw [show sumP pgKey (([], []) :
      List (Str × Str) × List (Str × ℕ)).2 = 0 from rfl]
    omega
  · intro pre post b hbg
    unfold prepareSankeyData
    rw [List.foldl_append, List.foldl_append, List.foldl_cons,
      sankeyStep_skip tg _ b (Or.inl hbg)]

theorem C5_witness :
    (prepareSankeyData [⟨1, ['A'], 5, 1, 1, false⟩] []).links.Pairwise
      (fun l1 l2 => (l1.source, l1.target) ≠ (l2.source, l2.target)) :=
  (C5_prepareSankeyData [⟨1, ['A'], 5, 1, 1, false⟩] []).1 (by decide)

/-- C5 counterexample: with a genre containing the separator `'|'`
(`"A|r_Acclaimed (4.5+)"`, kept verbatim because it is in the top-genre
list), two different aggregation keys split into the same
(source, target) pair, so the emitted link list has a duplicate pair. -/
theorem C5_counterexample :
    ¬ (prepareSankeyData c5Books c5TopGenres).links.Pairwise
      (fun l1 l2 => (l1.source, l1.target) ≠ (l2.source, l2.target)) := by
  decide

/-- C10 (amended): provided no record's genre contains `'|'`, flow is
conserved at every rating-tier (`r_`-prefixed) node: the total value of
links entering it equals the total value of links leaving it. -/
theorem C10_flow_conservation (data : List BookData) (tg : List Str)
    (hclean : ∀ b ∈ data, barFree b.genre) (nid : Str)
    (hr : nid.take 2 = ['r', '_']) :
    ((prepareSankeyData data tg).links.map
        (fun l => if l.target = nid then l.value else 0)).sum =
      ((prepareSankeyData data tg).links.map
        (fun l => if l.source = nid then l.value else 0)).sum := by
  obtain ⟨hT, hS⟩ := flow_foldl tg nid hr data ([], []) hclean
  simp only [prepareSankeyData]
  rw [links_tgt_sum, links_src_sum, hT, hS]
  rfl

theorem C10_witness :
    ((prepareSankeyData [⟨1, ['A'], 5, 1, 1, false⟩] []).links.map
        (fun l => if l.target = 'r' :: '_' :: tierAcclaimed then l.value
          else 0)).sum =
      ((prepareSankeyData [⟨1, ['A'], 5, 1, 1, false⟩] []).links.map
        (fun l => if l.source = 'r' :: '_' :: tierAcclaimed then l.value
          else 0)).sum :=
  C10_flow_conservation [⟨1, ['A'], 5, 1, 1, false⟩] [] (by decide)
    ('r' :: '_' :: tierAcclaimed) (by decide)

/-- C10 counterexample: with a genre containing `'|'`, the mangled key
splits into a spurious link entering the Acclaimed tier node, so inflow 2
differs from outflow 1 at that node. -/
theorem C10_counterexample :
    ¬ (((prepareSankeyData c10Books c10TopGenres).links.map
        (fun l => if l.target = 'r' :: '_' :: tierAcclaimed then l.value
          else 0)).sum =
      ((prepareSankeyData c10Books c10TopGenres).links.map
        (fun l => if l.source = 'r' :: '_' :: tierAcclaimed then l.value
          else 0)).sum) := by
  decide

theorem mapGet_of_mem_pairwise {α : Type} (m : List (Str × α))
    (hp : m.Pairwise (fun e1 e2 => e1.1 ≠ e2.1)) (e : Str × α) (he : e ∈ m) :
    mapGet m e.1 = some e.2 := by
  induction m with
  | nil => cases he
  | cons hd tl ih =>
    rw [List.pairwise_cons] at hp
    rcases List.mem_cons.mp he with rfl | hmem
    · simp [mapGet]
    · obtain ⟨k', v'⟩ := hd
      simp only [mapGet]
      rw [if_neg (hp.1 e hmem)]
      exact ih hp.2 hmem

theorem mem_keys_mapSet {α : Type} (m : List (Str × α)) (k g : Str) (v : α) :
    g ∈ (mapSet m k v).map Prod.fst ↔ g = k ∨ g ∈ m.map Prod.fst := by
  induction m with
  | nil => simp [mapSet]
  | cons hd tl ih =>
    obtain ⟨k', v'⟩ := hd
    simp only [mapSet]
    by_cases hk : k' = k
    · rw [if_pos hk]
      subst hk
      simp only [List.map_cons, List.mem_cons]
      tauto
    · rw [if_neg hk]
      simp only [List.map_cons, List.mem_cons]
      rw [ih]
      tauto

theorem pairwise_keys_genreStep (m : List (Str × GenreStats)) (b : BookData)
    (h : m.Pairwise (fun e1 e2 => e1.1 ≠ e2.1)) :
    (genreStep m b).Pairwise (fun e1 e2 => e1.1 ≠ e2.1) := by
  unfold genreStep
  split
  · exact h
  · exact pairwise_keys_mapSet m b.genre _ h

theorem keys_ne_nil_genreStep (m : List (Str × GenreStats)) (b : BookData)
    (h : ∀ e ∈ m, e.1 ≠ []) : ∀ e ∈ genreStep m b, e.1 ≠ [] := by
  unfold genreStep
  split
  · exact h
  · intro e he
    rcases mem_mapSet m b.genre _ e he with h1 | h1
    · rw [h1]
      assumption
    · exact h e h1

theorem genre_fold_inv (data : List BookData) :
    ∀ m : List (Str × GenreStats),
      m.Pairwise (fun e1 e2 => e1.1 ≠ e2.1) → (∀ e ∈ m, e.1 ≠ []) →
      (data.foldl genreStep m).Pairwise (fun e1 e2 => e1.1 ≠ e2.1) ∧
        (∀ e ∈ data.foldl genreStep m, e.1 ≠ []) := by
  induction data with
  | nil =>
    intro m hp hn
    exact ⟨hp, hn⟩
  | cons b rest ih =>
    intro m hp hn
    rw [List.foldl_cons]
    exact ih (genreStep m b) (pairwise_keys_genreStep m b hp)
      (keys_ne_nil_genreStep m b hn)

theorem countIn_genreStep (m : List (Str × GenreStats)) (b : BookData)
    (g : Str) (hg : g ≠ []) :
    countIn (genreStep m b) g = countIn m g +
      (if b.genre = g then 1 else 0) := by
  unfold genreStep
  by_cases hb : b.genre = []
  · rw [if_pos hb, if_neg (fun h => hg (h.symm.trans hb))]
    omega
  · rw [if_neg hb]
    unfold countIn
    by_cases hbg : b.genre = g
    · subst hbg
      rw [mapGet_mapSet_self]
      simp
    · rw [mapGet_mapSet_ne _ _ _ _ hbg, if_neg hbg]
      omega

theorem countIn_foldl (data : List BookData) (g : Str) (hg : g ≠ []) :
    ∀ m : List (Str × GenreStats),
      countIn (data.foldl genreStep m) g = countIn m g + genreFreq data g := by
  induction data with
  | nil =>
    intro m
    simp [genreFreq]
  | cons b rest ih =>
    intro m
    rw [List.foldl_cons, ih (genreStep m b), countIn_genreStep m b g hg]
    unfold genreFreq
    rw [List.countP_cons]
    by_cases hbg : b.genre = g
    · rw [if_pos hbg, if_pos (decide_eq_true hbg)]
      omega
    · rw [if_neg hbg, if_neg (fun h => hbg (of_decide_eq_true h))]
      omega

theorem mem_keys_genre_foldl (data : List BookData) (g : Str) :
    ∀ m : List (Str × GenreStats),
      (g ∈ (data.foldl genreStep m).map Prod.fst ↔
        g ∈ m.map Prod.fst ∨ (g ≠ [] ∧ ∃ b ∈ data, b.genre = g)) := by
  induction data with
  | nil =>
    intro m
    rw [List.foldl_nil]
    constructor
    · exact fun h => Or.inl h
    · rintro (h | ⟨_, x, hx, _⟩)
      · exact h
      · cases hx
  | cons b rest ih =>
    intro m
    rw [List.foldl_cons, ih (genreStep m b)]
    unfold genreStep
    by_cases hb : b.genre = []
    · rw [if_pos hb]
      constructor
      · rintro (h | h)
        · exact Or.inl h
        · exact Or.inr ⟨h.1, h.2.imp (fun x hx => ⟨List.mem_cons_of_mem b hx.1, hx.2⟩)⟩
      · rintro (h | ⟨hgne, x, hx, hxg⟩)
        · exact Or.inl h
        · rcases List.mem_cons.mp hx with rfl | hx2
          · exact absurd (hxg.symm.trans hb) hgne
          · exact Or.inr ⟨hgne, x, hx2, hxg⟩
    · rw [if_neg hb]
      rw [mem_keys_mapSet]
      constructor
      · rintro ((rfl | h) | h)
        · exact Or.inr ⟨hb, b, List.mem_cons_self b rest, rfl⟩
        · exact Or.inl h
        · exact Or.inr ⟨h.1, h.2.imp (fun x hx => ⟨List.mem_cons_of_mem b hx.1, hx.2⟩)⟩
      · rintro (h | ⟨hgne, x, hx, hxg⟩)
        · exact Or.inl (Or.inr h)
        · rcases List.mem_cons.mp hx with rfl | hx2
          · exact Or.inl (Or.inl hxg.symm)
          · exact Or.inr ⟨hgne, x, hx2, hxg⟩

theorem aggregate_count_freq (data : List BookData) :
    ∀ d ∈ aggregateByGenre data,
      d.count = genreFreq data d.genre ∧ d.genre ≠ [] := by
  obtain ⟨hpair, hnempty⟩ :=
    genre_fold_inv data [] List.Pairwise.nil (by intro e he; cases he)
  intro d hd
  unfold aggregateByGenre at hd
  rw [List.mem_map] at hd
  obtain ⟨p, hp, rfl⟩ := hd
  refine ⟨?_, hnempty p hp⟩
  show p.2.count = genreFreq data p.1
  have hg := mapGet_of_mem_pairwise _ hpair p hp
  have hc := countIn_foldl data p.1 (hnempty p hp) []
  unfold countIn at hc
  rw [hg] at hc
  simp only [Option.getD_some] at hc
  rw [hc]
  simp [mapGet]

theorem aggregate_genres_keys (data : List BookData) :
    (aggregateByGenre data).map (fun d => d.genre) =
      (data.foldl genreStep []).map Prod.fst := by
  unfold aggregateByGenre
  rw [List.map_map]
  rfl

/-- C8: `getTopGenres data n` has length at most `n` and is a prefix (hence
a subsequence) of `sortedGenres data`; that full sequence has no
duplicates, is ordered by descending frequency, and contains exactly the
non-empty genres occurring in the data. The embedding is a pure function,
so repeated calls on the same input agree by construction (the stable sort
leaves ties in first-encountered order). -/
theorem C8_getTopGenres (data : List BookData) (n : ℕ) :
    (getTopGenres data n).length ≤ n ∧
    List.Sublist (getTopGenres data n) (sortedGenres data) ∧
    (sortedGenres data).Nodup ∧
    (sortedGenres data).Pairwise
      (fun g1 g2 => genreFreq data g2 ≤ genreFreq data g1) ∧
    (∀ g, g ∈ sortedGenres data ↔ g ≠ [] ∧ ∃ b ∈ data, b.genre = g) := by
  obtain ⟨hpair, hnempty⟩ :=
    genre_fold_inv data [] List.Pairwise.nil (by intro e he; cases he)
  have hperm : List.Perm (List.insertionSort countGe (aggregateByGenre data))
      (aggregateByGenre data) := List.perm_insertionSort countGe _
  have hsorted : (List.insertionSort countGe
      (aggregateByGenre data)).Pairwise countGe :=
    List.sorted_insertionSort countGe _
  have htake : getTopGenres data n = (sortedGenres data).take n := by
    unfold getTopGenres sortedGenres
    rw [List.map_take]
  have hmapperm : List.Perm (sortedGenres data)
      ((aggregateByGenre data).map (fun d => d.genre)) := hperm.map _
  have hkeysnodup : ((data.foldl genreStep []).map Prod.fst).Nodup :=
    List.pairwise_map.mpr hpair
  refine ⟨?_, ?_, ?_, ?_, ?_⟩
  · rw [htake]
    exact List.length_take_le n _
  · rw [htake]
    exact List.take_sublist n _
  · rw [hmapperm.nodup_iff, aggregate_genres_keys]
    exact hkeysnodup
  · unfold sortedGenres
    rw [List.pairwise_map]
    refine List.Pairwise.imp_of_mem ?_ hsorted
    intro d1 d2 h1 h2 hle
    have m1 := hperm.mem_iff.mp h1
    have m2 := hperm.mem_iff.mp h2
    rw [← (aggregate_count_freq data d1 m1).1,
      ← (aggregate_count_freq data d2 m2).1]
    exact hle
  · intro g
    rw [hmapperm.mem_iff, aggregate_genres_keys,
      mem_keys_genre_foldl data g []]
    simp

theorem C8_witness :
    ['A'] ∈ sortedGenres [⟨1, ['A'], 5, 1, 1, false⟩] :=
  ((C8_getTopGenres [⟨1, ['A'], 5, 1, 1, false⟩] 1).2.2.2.2 ['A']).mpr
    ⟨by decide, ⟨1, ['A'], 5, 1, 1, false⟩, by decide, rfl⟩
